import Mathlib

/-!
Shallow embedding of the DOLFIN/DOLFINX Function and Expression evaluation
subsystem, translated from `cpp/dolfinx/function/Expression.h` and
`cpp/dolfin/function/Function.h`, together with theorems checking the
specification of the repository against it.

Modelling conventions: C++ `double` / `PetscScalar` scalars are rationals;
a `std::shared_ptr` that may be null is an `Option`; a method that throws is
a function returning its result together with an `Option EvalError`, where
the returned state in the error case is the state the C++ object is left in
when the exception escapes.
-/

/-- Error conditions of the evaluation subsystem, following the spec's error
model: `OutOfRangeError` (output buffer of the wrong shape), `NotReady`
(Expression evaluated before constants and callback are bound),
`UnknownConstant` (a named constant not declared on the target; carries the
name from the thrown message), `DimensionMismatch` (value-size mismatch in
interpolation). -/
inductive EvalError where
  | OutOfRangeError
  | NotReady
  | UnknownConstant (name : String)
  | DimensionMismatch
deriving DecidableEq

namespace Dolfinx

/-- A `dolfinx::function::Constant<T>` holds an array of values of type `T`;
it is modelled by that array. A possibly-null
`std::shared_ptr<const Constant<T>>` is `Option (List T)`. -/
abbrev ConstantPtr (T : Type) := Option (List T)

/-- `dolfinx::function::Expression<T>` from `Expression.h`.

`constants` is the member `_constants`, a vector of (name, shared pointer)
pairs; `fn` is the member `_fn`, the late-bound tabulation callback
(`nullptr` after construction, so `Option`), taking the gathered per-cell
coefficient data, the constant data and the per-cell geometry data to an
output row. The member `_coefficients` (a `fem::FormCoefficients<T>`, whose
class is outside the shown sources) is represented by the per-cell gathered
coefficient data `coeff_data` that evaluation consumes; the mesh and the
per-cell geometry it provides are represented by `geom_data`. -/
structure Expression (T : Type) where
  coeff_data : Int → List T
  geom_data : Int → List ℚ
  constants : List (String × ConstantPtr T)
  fn : Option (List T → List T → List ℚ → List T)

/-- The default constructor `Expression()` delegates to the main constructor
with an empty `FormCoefficients` and an empty constant list; `_fn` and
`_mesh` are null. -/
def Expression.emptyExpr (T : Type) : Expression T :=
  { coeff_data := fun _ => []
    geom_data := fun _ => []
    constants := []
    fn := none }

/-- `Expression::all_constants_set`: true when no stored constant pointer is
null. -/
def Expression.all_constants_set (e : Expression T) : Bool :=
  e.constants.all fun c => c.2.isSome

/-- `Expression::get_unset_constants`: the `std::set` of the names of the
constants whose stored pointer is null (a set of strings: duplicates
collapse, order is by name, so a `Finset`). -/
def Expression.get_unset_constants (e : Expression T) : Finset String :=
  ((e.constants.filter fun c => c.2.isNone).map Prod.fst).toFinset

/-- `std::vector::resize(n)` with default element `dflt`: truncate to `n`
elements, or extend with copies of `dflt` up to `n` elements. -/
def listResize (l : List α) (n : Nat) (dflt : α) : List α :=
  l.take n ++ List.replicate (n - l.length) dflt

/-- The positional overload `Expression::set_constants(vector)`: resize
`_constants` to the input's size (no count check: the check is commented out
in the source), then store each input pointer in order, each under the empty
name. Never throws, hence the error component is always `none`. -/
def Expression.set_constants_vec (e : Expression T) (cs : List (ConstantPtr T)) :
    Expression T × Option EvalError :=
  let resized := listResize e.constants cs.length ("", none)
  let updated := (List.range cs.length).foldl
    (fun acc i => acc.set i ("", cs.getD i none)) resized
  ({ e with constants := updated }, none)

/-- `std::find_if` over `_constants` for the first pair whose name equals
`name`, followed by `it->second = c`: returns the updated list, or `none`
when no pair matches (the `it == _constants.end()` case). -/
def replaceConstant (name : String) (c : ConstantPtr T) :
    List (String × ConstantPtr T) → Option (List (String × ConstantPtr T))
  | [] => none
  | q :: qs =>
    if q.1 = name then some ((q.1, c) :: qs)
    else match replaceConstant name c qs with
      | some qs2 => some (q :: qs2)
      | none => none

/-- The loop body of the named overload `Expression::set_constants(map)`:
process the map's entries in order (a `std::map` iterates its entries in
ascending key order with unique keys); each entry either replaces the first
stored constant of its name, or makes the whole call throw
`Constant not found in form`, leaving the updates already made in place. -/
def setConstantsMapAux (T : Type) :
    List (String × ConstantPtr T) → List (String × ConstantPtr T) →
    List (String × ConstantPtr T) × Option EvalError
  | [], cs => (cs, none)
  | (name, c) :: rest, cs =>
    match replaceConstant name c cs with
    | some cs2 => setConstantsMapAux T rest cs2
    | none => (cs, some (.UnknownConstant name))

/-- The named overload `Expression::set_constants(map)`. The `std::map`
argument is modelled as its entry list in ascending key order; theorems
about it carry that ordering as a hypothesis. -/
def Expression.set_constants_map (e : Expression T)
    (m : List (String × ConstantPtr T)) : Expression T × Option EvalError :=
  let r := setConstantsMapAux T m e.constants
  ({ e with constants := r.1 }, r.2)

/-- `Expression::set_tabulate_expression`. -/
def Expression.set_tabulate_expression (e : Expression T)
    (f : List T → List T → List ℚ → List T) : Expression T :=
  { e with fn := some f }

/-- The constant data passed to the tabulation callback: the stored
constants' value arrays, flattened in order (a null pointer contributes
nothing; evaluation rejects that case before reading the data). -/
def Expression.constData (e : Expression T) : List T :=
  (e.constants.map fun c => c.2.getD []).flatten

/-- Modelled from the spec: `Expression::eval` delegates to
`function::eval(values, *this, active_cells)` in `evaluate.h`, which is not
among the shown sources. Per the spec (4.4), the call first checks that all
constants are bound and that the tabulation callback is set — violating
either is the `NotReady` condition, detected before any row is written — and
then, for every index in `active_cells`, gathers that cell's coefficient and
geometry data, invokes the callback on them together with the constant data,
and writes the result into the corresponding row of `values`. -/
def Expression.eval (e : Expression T) (active_cells : List Int)
    (values : List (List T)) : List (List T) × Option EvalError :=
  match e.fn with
  | none => (values, some .NotReady)
  | some f =>
    if e.all_constants_set then
      (((List.range values.length).map fun i =>
        if i < active_cells.length then
          f (e.coeff_data (active_cells.getD i 0)) e.constData
            (e.geom_data (active_cells.getD i 0))
        else values.getD i []), none)
    else (values, some .NotReady)

end Dolfinx

namespace Dolfin

/-- A point: a row of an `N×3` coordinate array (physical coordinates for
`Function::eval`, reference-cell coordinates for
`Function::eval_reference`). -/
structure Pt where
  x : ℚ
  y : ℚ
  z : ℚ
deriving DecidableEq

/-- Modelled from the spec: the `fem::FiniteElement` consumed by
`function::Function` (its class is outside the shown sources) describes a
reference-cell basis — value size, per-cell dof count, and a tabulation
routine mapping reference coordinates to basis values. The two element
kinds the spec's concrete scenarios use are the scalar first-degree Lagrange
triangle (three nodal dofs, basis `1-x-y`, `x`, `y`) and the scalar
cell-constant DG0 triangle (one dof, basis `1`). -/
inductive FiniteElement where
  | P1Triangle
  | DG0Triangle
deriving DecidableEq

/-- Value size (number of value components) of the element; both modelled
elements are scalar. -/
def FiniteElement.value_size : FiniteElement → Nat
  | .P1Triangle => 1
  | .DG0Triangle => 1

/-- Per-cell dof count of the element. -/
def FiniteElement.ndofs : FiniteElement → Nat
  | .P1Triangle => 3
  | .DG0Triangle => 1

/-- Basis tabulation at a reference point: the list of the basis values of
the element's dofs there. -/
def FiniteElement.tabulate : FiniteElement → Pt → List ℚ
  | .P1Triangle, p => [1 - p.x - p.y, p.x, p.y]
  | .DG0Triangle, _ => [1]

/-- Modelled from the spec: `function::FunctionSpace` (outside the shown
sources) binds a mesh, a finite element and a degree-of-freedom map. The
mesh is represented by its cell count, the per-cell physical vertex
coordinates (2D triangles), and the element's interpolation points; the dof
map is the per-cell list of global coefficient indices. -/
structure FunctionSpace where
  element : FiniteElement
  num_cells : Nat
  dofmap : List (List Nat)
  cell_vertices : List (List (ℚ × ℚ))
  interp_points : List Pt
deriving DecidableEq

/-- Modelled from the spec (4.2 step 2): map a physical point into the
reference coordinates of cell `c` using that cell's geometric map — for
straight-sided triangles the inverse of the affine map
`x = v0 + X1·(v1-v0) + X2·(v2-v0)`. -/
def FunctionSpace.pull_back (s : FunctionSpace) (c : Nat) (p : Pt) : Pt :=
  let vs := s.cell_vertices.getD c []
  let v0 := vs.getD 0 (0, 0)
  let v1 := vs.getD 1 (0, 0)
  let v2 := vs.getD 2 (0, 0)
  let a := v1.1 - v0.1
  let b := v2.1 - v0.1
  let c2 := v1.2 - v0.2
  let d := v2.2 - v0.2
  let det := a * d - b * c2
  let px := p.x - v0.1
  let py := p.y - v0.2
  ⟨(d * px - b * py) / det, (a * py - c2 * px) / det, 0⟩

/-- `dolfin::function::Function` from `Function.h`: a function space
together with the vector of expansion coefficients (`_vector`). The `name`
label and the process-unique `_id` are metadata with no effect on
evaluation and are not modelled. -/
structure Function where
  space : FunctionSpace
  coeffs : List ℚ
deriving DecidableEq

/-- `Function::value_size`. -/
def Function.value_size (f : Function) : Nat :=
  f.space.element.value_size

/-- Modelled from the spec (4.2 step 3): evaluate the basis of cell `c` at
reference point `X`, gather the cell's local coefficient values via the dof
map, and form the linear combination basis·coefficients (one scalar, the
modelled elements being scalar-valued). -/
def Function.eval_cell (f : Function) (c : Nat) (X : Pt) : List ℚ :=
  let dofs := f.space.dofmap.getD c []
  [(List.zipWith (fun φ i => φ * f.coeffs.getD i 0)
      (f.space.element.tabulate X) dofs).sum]

/-- Modelled from the spec: `Function::eval(x, cells, u)` — its
implementation file is outside the shown sources. The output buffer must be
exactly `N×value_size` (else the call fails with `OutOfRangeError` before
computing any values); then, for each point `i`, a negative `cells[i]` is
skipped with `u`'s row `i` left unmodified, and a non-negative `cells[i]`
has the point mapped to that cell's reference coordinates and the field
evaluated there, the result written into `u`'s row `i`. -/
def Function.eval (f : Function) (x : List Pt) (cells : List Int)
    (u : List (List ℚ)) : List (List ℚ) × Option EvalError :=
  if u.length = x.length ∧ (u.all fun r => r.length = f.value_size) then
    (((List.range x.length).map fun i =>
      if cells.getD i (-1) < 0 then u.getD i []
      else f.eval_cell (cells.getD i (-1)).toNat
        (f.space.pull_back (cells.getD i (-1)).toNat (x.getD i ⟨0, 0, 0⟩))),
     none)
  else (u, some .OutOfRangeError)

/-- Modelled from the spec: `Function::eval_reference(X, u)` — evaluate at
the given reference points on all cells, the output ordered by cell (all
points for cell 0, then cell 1, …). -/
def Function.eval_reference (f : Function) (X : List Pt) : List (List ℚ) :=
  ((List.range f.space.num_cells).map fun c =>
    X.map fun p => f.eval_cell c p).flatten

/-- Reference coordinates of a triangle cell's own geometric points (its
three vertices). -/
def triangleRefVertices : List Pt := [⟨0, 0, 0⟩, ⟨1, 0, 0⟩, ⟨0, 1, 0⟩]

/-- Modelled from the spec (4.3): `Function::compute_point_values()` —
for every cell, evaluate the field at each of the cell's own geometric
points, laid out per cell with no deduplication of shared vertices. -/
def Function.compute_point_values (f : Function) : List (List ℚ) :=
  ((List.range f.space.num_cells).map fun c =>
    triangleRefVertices.map fun p => f.eval_cell c p).flatten

/-- Modelled from the spec (4.1): `Function::interpolate(v)` — its
implementation file is outside the shown sources. Fails with
`DimensionMismatch` when the source's value size differs from the
target's; on a matching space the interpolation is an exact dof-value
copy; otherwise it is a geometric projection: each target interpolation
point is located in the source mesh through the external Point Location
Service — passed in as `locate`, a sentinel negative index marking an
unlocated point — and the source is evaluated there. -/
def Function.interpolate (f v : Function) (locate : Pt → Int) :
    Function × Option EvalError :=
  if v.value_size ≠ f.value_size then (f, some .DimensionMismatch)
  else if v.space = f.space then ({ f with coeffs := v.coeffs }, none)
  else
    ({ f with coeffs := f.space.interp_points.map fun p =>
        let c := locate p
        if c < 0 then 0
        else (v.eval_cell c.toNat (v.space.pull_back c.toNat p)).getD 0 0 },
     none)

end Dolfin

/-! Helper lemmas about the list primitives used by the embedding. -/

theorem listResize_length (l : List α) (n : Nat) (d : α) :
    (Dolfinx.listResize l n d).length = n := by
  simp only [Dolfinx.listResize, List.length_append, List.length_take,
    List.length_replicate]
  omega

theorem set_append_length_eq (xs : List α) (y : α) (ys : List α) (v : α) :
    (xs ++ y :: ys).set xs.length v = xs ++ v :: ys := by
  induction xs with
  | nil => rfl
  | cons a as ih => simp [List.set, ih]

theorem foldl_set_range (g : Nat → α) :
    ∀ (n : Nat) (l : List α), n ≤ l.length →
    (List.range n).foldl (fun acc i => acc.set i (g i)) l
      = (List.range n).map g ++ l.drop n := by
  intro n
  induction n with
  | zero => simp
  | succ n ih =>
    intro l hn
    have hrange : List.range (n + 1) = List.range n ++ [n] := by
      simpa using List.range_succ (n := n)
    have hlt : n < l.length := by omega
    rw [hrange, List.foldl_append, ih l (by omega), List.map_append]
    have hdrop : l.drop n = l[n] :: l.drop (n + 1) := List.drop_eq_getElem_cons hlt
    rw [hdrop]
    have hlen : ((List.range n).map g).length = n := by simp
    calc ((List.range n).map g ++ l[n] :: l.drop (n + 1)).set n (g n)
        = ((List.range n).map g ++ l[n] :: l.drop (n + 1)).set
            ((List.range n).map g).length (g n) := by rw [hlen]
      _ = (List.range n).map g ++ g n :: l.drop (n + 1) := set_append_length_eq ..
      _ = (List.range n).map g ++ [g n] ++ l.drop (n + 1) := by simp

theorem map_getD_range (l : List α) (d : α) :
    (List.range l.length).map (fun i => l.getD i d) = l := by
  apply List.ext_getElem (by simp)
  intro i h1 h2
  simp only [List.getElem_map, List.getElem_range]
  exact List.getD_eq_getElem l d h2

/-- Net effect of the positional `set_constants` overload: the stored
constant list becomes the input list, each entry paired with the empty
name. -/
theorem set_constants_vec_constants {T : Type} (e : Dolfinx.Expression T)
    (cs : List (Dolfinx.ConstantPtr T)) :
    ((e.set_constants_vec cs).1).constants = cs.map fun c => ("", c) := by
  show (List.range cs.length).foldl
      (fun acc i => acc.set i ("", cs.getD i none))
      (Dolfinx.listResize e.constants cs.length ("", none))
      = cs.map fun c => ("", c)
  have hlen : (Dolfinx.listResize e.constants cs.length ("", none)).length
      = cs.length := listResize_length ..
  rw [foldl_set_range (fun i => ("", cs.getD i none)) cs.length _ (by omega),
    List.drop_eq_nil_of_le (by omega), List.append_nil]
  calc (List.range cs.length).map (fun i => ((""  : String), cs.getD i none))
      = ((List.range cs.length).map fun i => cs.getD i none).map
          (fun c => ("", c)) := by rw [List.map_map]; rfl
    _ = cs.map fun c => ("", c) := by rw [map_getD_range]

/-! Helper lemmas about `replaceConstant` and `setConstantsMapAux`. -/

theorem replaceConstant_eq_none_iff {T : Type} (name : String)
    (c : Dolfinx.ConstantPtr T) :
    ∀ (cs : List (String × Dolfinx.ConstantPtr T)),
    Dolfinx.replaceConstant name c cs = none ↔ name ∉ cs.map Prod.fst := by
  intro cs
  induction cs with
  | nil => simp [Dolfinx.replaceConstant]
  | cons q qs ih =>
    by_cases hq : q.1 = name
    · simp [Dolfinx.replaceConstant, hq]
    · rw [Dolfinx.replaceConstant, if_neg hq]
      cases hrec : Dolfinx.replaceConstant name c qs with
      | none =>
        rw [hrec] at ih
        simp only [List.map_cons, List.mem_cons]
        constructor
        · intro _ hmem
          rcases hmem with h1 | h2
          · exact hq h1.symm
          · exact ih.mp rfl h2
        · intro _; trivial
      | some qs2 =>
        rw [hrec] at ih
        have hmem : name ∈ qs.map Prod.fst := by
          by_contra hni
          exact Option.noConfusion (ih.mpr hni)
        simp only [List.map_cons, List.mem_cons]
        constructor
        · intro h; exact Option.noConfusion h
        · intro hno; exact absurd (Or.inr hmem) hno

theorem replaceConstant_names {T : Type} (name : String)
    (c : Dolfinx.ConstantPtr T) :
    ∀ (cs cs2 : List (String × Dolfinx.ConstantPtr T)),
    Dolfinx.replaceConstant name c cs = some cs2 →
    cs2.map Prod.fst = cs.map Prod.fst := by
  intro cs
  induction cs with
  | nil => intro cs2 h; simp [Dolfinx.replaceConstant] at h
  | cons q qs ih =>
    intro cs2 h
    rw [Dolfinx.replaceConstant] at h
    by_cases hq : q.1 = name
    · rw [if_pos hq] at h
      cases h
      simp
    · rw [if_neg hq] at h
      cases hrec : Dolfinx.replaceConstant name c qs with
      | none => rw [hrec] at h; cases h
      | some qs3 =>
        rw [hrec] at h
        cases h
        simp [ih qs3 hrec]

/-- First-match lookup of a stored constant by name, the observation the
`find_if` in the named overload performs. -/
def lookupConstant {T : Type} (name : String) :
    List (String × Dolfinx.ConstantPtr T) → Option (Dolfinx.ConstantPtr T)
  | [] => none
  | q :: qs => if q.1 = name then some q.2 else lookupConstant name qs

theorem replaceConstant_lookup_ne {T : Type} (name : String)
    (c : Dolfinx.ConstantPtr T) :
    ∀ (cs cs2 : List (String × Dolfinx.ConstantPtr T)),
    Dolfinx.replaceConstant name c cs = some cs2 →
    ∀ name2, name2 ≠ name →
    lookupConstant name2 cs2 = lookupConstant name2 cs := by
  intro cs
  induction cs with
  | nil => intro cs2 h; simp [Dolfinx.replaceConstant] at h
  | cons q qs ih =>
    intro cs2 h name2 hne
    rw [Dolfinx.replaceConstant] at h
    by_cases hq : q.1 = name
    · rw [if_pos hq] at h
      cases h
      have hne2 : ¬(q.1 = name2) := fun he => hne (he.symm.trans hq)
      rw [lookupConstant, lookupConstant, if_neg hne2, if_neg hne2]
    · rw [if_neg hq] at h
      cases hrec : Dolfinx.replaceConstant name c qs with
      | none => rw [hrec] at h; cases h
      | some qs3 =>
        rw [hrec] at h
        cases h
        rw [lookupConstant, lookupConstant]
        by_cases hq2 : q.1 = name2
        · rw [if_pos hq2, if_pos hq2]
        · rw [if_neg hq2, if_neg hq2, ih qs3 hrec name2 hne]

theorem replaceConstant_lookup_eq {T : Type} (name : String)
    (c : Dolfinx.ConstantPtr T) :
    ∀ (cs cs2 : List (String × Dolfinx.ConstantPtr T)),
    Dolfinx.replaceConstant name c cs = some cs2 →
    lookupConstant name cs2 = some c := by
  intro cs
  induction cs with
  | nil => intro cs2 h; simp [Dolfinx.replaceConstant] at h
  | cons q qs ih =>
    intro cs2 h
    rw [Dolfinx.replaceConstant] at h
    by_cases hq : q.1 = name
    · rw [if_pos hq] at h
      cases h
      rw [lookupConstant, if_pos hq]
    · rw [if_neg hq] at h
      cases hrec : Dolfinx.replaceConstant name c qs with
      | none => rw [hrec] at h; cases h
      | some qs3 =>
        rw [hrec] at h
        cases h
        rw [lookupConstant, if_neg hq]
        exact ih qs3 hrec

theorem setConstantsMapAux_names {T : Type} :
    ∀ (m cs : List (String × Dolfinx.ConstantPtr T)),
    (Dolfinx.setConstantsMapAux T m cs).1.map Prod.fst = cs.map Prod.fst := by
  intro m
  induction m with
  | nil => intro cs; rfl
  | cons p rest ih =>
    intro cs
    rw [Dolfinx.setConstantsMapAux]
    cases hrec : Dolfinx.replaceConstant p.1 p.2 cs with
    | none => rfl
    | some cs2 => rw [ih cs2, replaceConstant_names p.1 p.2 cs cs2 hrec]

theorem setConstantsMapAux_ok {T : Type} :
    ∀ (m cs : List (String × Dolfinx.ConstantPtr T)),
    (∀ p ∈ m, p.1 ∈ cs.map Prod.fst) →
    (Dolfinx.setConstantsMapAux T m cs).2 = none := by
  intro m
  induction m with
  | nil => intro cs _; rfl
  | cons p rest ih =>
    intro cs hall
    rw [Dolfinx.setConstantsMapAux]
    cases hrec : Dolfinx.replaceConstant p.1 p.2 cs with
    | none =>
      exact absurd (hall p (List.mem_cons_self ..))
        ((replaceConstant_eq_none_iff p.1 p.2 cs).mp hrec)
    | some cs2 =>
      apply ih cs2
      intro q hq
      rw [replaceConstant_names p.1 p.2 cs cs2 hrec]
      exact hall q (List.mem_cons_of_mem _ hq)

theorem setConstantsMapAux_err {T : Type} :
    ∀ (m cs : List (String × Dolfinx.ConstantPtr T)) (err : EvalError),
    (Dolfinx.setConstantsMapAux T m cs).2 = some err →
    ∃ n, err = .UnknownConstant n ∧ n ∈ m.map Prod.fst ∧ n ∉ cs.map Prod.fst := by
  intro m
  induction m with
  | nil => intro cs err h; exact Option.noConfusion h
  | cons p rest ih =>
    intro cs err h
    rw [Dolfinx.setConstantsMapAux] at h
    cases hrec : Dolfinx.replaceConstant p.1 p.2 cs with
    | none =>
      rw [hrec] at h
      cases h
      exact ⟨p.1, rfl, List.mem_map_of_mem _ (List.mem_cons_self ..),
        (replaceConstant_eq_none_iff p.1 p.2 cs).mp hrec⟩
    | some cs2 =>
      rw [hrec] at h
      obtain ⟨n, he, hm, hn⟩ := ih cs2 err h
      refine ⟨n, he, List.mem_cons_of_mem _ hm, ?_⟩
      rw [← replaceConstant_names p.1 p.2 cs cs2 hrec]
      exact hn

theorem setConstantsMapAux_lookup_ne {T : Type} :
    ∀ (m cs : List (String × Dolfinx.ConstantPtr T)) (name : String),
    name ∉ m.map Prod.fst →
    lookupConstant name (Dolfinx.setConstantsMapAux T m cs).1
      = lookupConstant name cs := by
  intro m
  induction m with
  | nil => intro cs name _; rfl
  | cons p rest ih =>
    intro cs name hni
    have hne : name ≠ p.1 := fun he =>
      hni (he ▸ List.mem_map_of_mem _ (List.mem_cons_self ..))
    have hnr : name ∉ rest.map Prod.fst := fun hmem =>
      hni (List.mem_cons_of_mem _ hmem)
    rw [Dolfinx.setConstantsMapAux]
    cases hrec : Dolfinx.replaceConstant p.1 p.2 cs with
    | none => rfl
    | some cs2 =>
      rw [ih cs2 name hnr]
      exact replaceConstant_lookup_ne p.1 p.2 cs cs2 hrec name hne

theorem setConstantsMapAux_lookup_mem {T : Type} :
    ∀ (m cs : List (String × Dolfinx.ConstantPtr T)),
    (m.map Prod.fst).Nodup →
    (∀ p ∈ m, p.1 ∈ cs.map Prod.fst) →
    ∀ p ∈ m, lookupConstant p.1 (Dolfinx.setConstantsMapAux T m cs).1 = some p.2 := by
  intro m
  induction m with
  | nil => intro cs _ _ p hp; exact absurd hp (List.not_mem_nil p)
  | cons q rest ih =>
    intro cs hnd hall p hp
    rw [Dolfinx.setConstantsMapAux]
    cases hrec : Dolfinx.replaceConstant q.1 q.2 cs with
    | none =>
      exact absurd (hall q (List.mem_cons_self ..))
        ((replaceConstant_eq_none_iff q.1 q.2 cs).mp hrec)
    | some cs2 =>
      rw [List.map_cons, List.nodup_cons] at hnd
      rcases List.mem_cons.mp hp with hpq | hpr
      · subst hpq
        rw [setConstantsMapAux_lookup_ne rest cs2 p.1 hnd.1]
        exact replaceConstant_lookup_eq p.1 p.2 cs cs2 hrec
      · apply ih cs2 hnd.2 ?_ p hpr
        intro r hr
        rw [replaceConstant_names q.1 q.2 cs cs2 hrec]
        exact hall r (List.mem_cons_of_mem _ hr)

/-! Concrete instances used by witnesses, counterexamples and the spec's
concrete scenarios. -/

/-- An Expression with one declared constant whose pointer is still null,
but whose tabulation callback is bound. -/
def exprOneUnset : Dolfinx.Expression ℚ :=
  { coeff_data := fun _ => []
    geom_data := fun _ => []
    constants := [("c", none)]
    fn := some fun _ _ _ => [0] }

/-- An Expression declaring the single constant named `b`, not yet set. -/
def exprDeclB : Dolfinx.Expression ℚ :=
  { coeff_data := fun _ => []
    geom_data := fun _ => []
    constants := [("b", none)]
    fn := none }

/-- An Expression declaring the single constant named `k`, already set. -/
def exprDeclK : Dolfinx.Expression ℚ :=
  { coeff_data := fun _ => []
    geom_data := fun _ => []
    constants := [("k", some [3])]
    fn := none }

/-! Theorems for the claims. -/

/-- C1: for every Expression with at least one unset constant or with no
tabulation callback bound, `eval(active_cells, values)` reports the
`NotReady` error condition and writes no row of `values`: the buffer after
the call is identical to its contents before the call. -/
theorem expression_eval_not_ready {T : Type} (e : Dolfinx.Expression T)
    (active_cells : List Int) (values : List (List T))
    (h : e.all_constants_set = false ∨ e.fn = none) :
    e.eval active_cells values = (values, some .NotReady) := by
  rcases hfn : e.fn with _ | f
  · simp only [Dolfinx.Expression.eval, hfn]
  · rcases h with hc | hc
    · simp only [Dolfinx.Expression.eval, hfn, hc]
      rfl
    · rw [hfn] at hc
      exact Option.noConfusion hc

/-- Witness for C1: a concrete Expression with a bound callback but one
null constant; evaluation returns the `values` buffer untouched and the
`NotReady` condition. -/
theorem expression_eval_not_ready_witness :
    Dolfinx.Expression.eval exprOneUnset [0] [[1]] = ([[1]], some .NotReady) :=
  expression_eval_not_ready exprOneUnset [0] [[1]] (Or.inl rfl)

/-- C4: the positional overload `set_constants(vector)` succeeds for every
input vector, regardless of whether its length equals the number of declared
constants: it resizes the internal constant list to the input's length,
stores the input's entries in order, and never reports an error. -/
theorem set_constants_vec_resizes_no_error {T : Type} (e : Dolfinx.Expression T)
    (cs : List (Dolfinx.ConstantPtr T)) :
    ((e.set_constants_vec cs).1).constants.length = cs.length ∧
    ((e.set_constants_vec cs).1).constants = (cs.map fun c => ("", c)) ∧
    (e.set_constants_vec cs).2 = none := by
  refine ⟨?_, set_constants_vec_constants e cs, rfl⟩
  rw [set_constants_vec_constants e cs, List.length_map]

/-- C9: `all_constants_set` is true exactly when `get_unset_constants` is
empty (both detect the constants whose stored pointer is null), and a
default-constructed Expression — no declared constants, callback still
unset — has `all_constants_set` true while its callback is null. -/
theorem all_constants_set_iff_unset_empty :
    (∀ (T : Type) (e : Dolfinx.Expression T),
      e.all_constants_set = true ↔ e.get_unset_constants = ∅) ∧
    (Dolfinx.Expression.emptyExpr ℚ).all_constants_set = true ∧
    (Dolfinx.Expression.emptyExpr ℚ).fn = none := by
  refine ⟨?_, rfl, rfl⟩
  intro T e
  simp only [Dolfinx.Expression.all_constants_set,
    Dolfinx.Expression.get_unset_constants, List.all_eq_true,
    List.toFinset_eq_empty_iff, List.map_eq_nil_iff, List.filter_eq_nil_iff]
  constructor
  · intro h c hc
    have := h c hc
    cases hv : c.2 with
    | none => rw [hv] at this; exact Bool.noConfusion this
    | some v => simp [hv]
  · intro h c hc
    have := h c hc
    cases hv : c.2 with
    | none => rw [hv] at this; exact absurd rfl this
    | some v => simp [hv]

theorem setConstantsMapAux_missing {T : Type} :
    ∀ (m cs : List (String × Dolfinx.ConstantPtr T)),
    (∃ p ∈ m, p.1 ∉ cs.map Prod.fst) →
    (Dolfinx.setConstantsMapAux T m cs).2 ≠ none := by
  intro m
  induction m with
  | nil =>
    rintro cs ⟨p, hp, _⟩
    exact absurd hp (List.not_mem_nil p)
  | cons q rest ih =>
    rintro cs ⟨p, hp, hpn⟩
    obtain ⟨name, c⟩ := q
    rw [Dolfinx.setConstantsMapAux]
    cases hrec : Dolfinx.replaceConstant name c cs with
    | none => simp
    | some cs2 =>
      have hmem : name ∈ cs.map Prod.fst := by
        by_contra hni
        exact Option.noConfusion
          (((replaceConstant_eq_none_iff name c cs).mpr hni).symm.trans hrec)
      have hpr : p ∈ rest := by
        rcases List.mem_cons.mp hp with hpq | hpr
        · exact absurd (hpq ▸ hmem) hpn
        · exact hpr
      apply ih cs2
      refine ⟨p, hpr, ?_⟩
      rw [replaceConstant_names name c cs cs2 hrec]
      exact hpn

theorem setConstantsMapAux_all_empty {T : Type} :
    ∀ (m cs : List (String × Dolfinx.ConstantPtr T)),
    (∀ s ∈ cs.map Prod.fst, s = "") → (∃ p ∈ m, p.1 ≠ "") →
    ∃ n, (Dolfinx.setConstantsMapAux T m cs).2 = some (.UnknownConstant n) := by
  intro m
  induction m with
  | nil =>
    rintro cs _ ⟨p, hp, _⟩
    exact absurd hp (List.not_mem_nil p)
  | cons q rest ih =>
    rintro cs hcs ⟨p, hp, hpn⟩
    obtain ⟨name, c⟩ := q
    rw [Dolfinx.setConstantsMapAux]
    by_cases hname : name = ""
    · cases hrec : Dolfinx.replaceConstant name c cs with
      | none => exact ⟨name, rfl⟩
      | some cs2 =>
        have hpr : p ∈ rest := by
          rcases List.mem_cons.mp hp with hpq | hpr
          · exact absurd (by rw [hpq]; exact hname) hpn
          · exact hpr
        apply ih cs2
        · intro s hs
          rw [replaceConstant_names name c cs cs2 hrec] at hs
          exact hcs s hs
        · exact ⟨p, hpr, hpn⟩
    · have hnone : Dolfinx.replaceConstant name c cs = none := by
        apply (replaceConstant_eq_none_iff name c cs).mpr
        intro hmem
        exact hname (hcs name hmem)
      rw [hnone]
      exact ⟨name, rfl⟩

theorem setConstantsMapAux_fail_state {T : Type} :
    ∀ (m cs : List (String × Dolfinx.ConstantPtr T)) (n : String),
    m.Pairwise (fun p q => p.1 < q.1) →
    (Dolfinx.setConstantsMapAux T m cs).2 = some (.UnknownConstant n) →
    (∀ p ∈ m, p.1 < n → p.1 ∈ cs.map Prod.fst ∧
      lookupConstant p.1 (Dolfinx.setConstantsMapAux T m cs).1 = some p.2) ∧
    (∀ p ∈ m, n < p.1 →
      lookupConstant p.1 (Dolfinx.setConstantsMapAux T m cs).1
        = lookupConstant p.1 cs) := by
  intro m
  induction m with
  | nil =>
    intro cs n _ herr
    exact Option.noConfusion herr
  | cons q rest ih =>
    intro cs n hsorted herr
    obtain ⟨name, c⟩ := q
    have hsr := List.pairwise_cons.mp hsorted
    cases hrec : Dolfinx.replaceConstant name c cs with
    | none =>
      have hstep : Dolfinx.setConstantsMapAux T ((name, c) :: rest) cs
          = (cs, some (.UnknownConstant name)) := by
        rw [Dolfinx.setConstantsMapAux, hrec]
      rw [hstep] at herr ⊢
      have hn : name = n := EvalError.UnknownConstant.inj (Option.some.inj herr)
      subst hn
      constructor
      · intro p hp hlt
        rcases List.mem_cons.mp hp with hpq | hpr
        · rw [hpq] at hlt
          exact absurd hlt (lt_irrefl _)
        · exact absurd hlt (not_lt.mpr (le_of_lt (hsr.1 p hpr)))
      · intro p _ _
        rfl
    | some cs2 =>
      have hstep : Dolfinx.setConstantsMapAux T ((name, c) :: rest) cs
          = Dolfinx.setConstantsMapAux T rest cs2 := by
        rw [Dolfinx.setConstantsMapAux, hrec]
      rw [hstep] at herr ⊢
      have ihres := ih cs2 n hsr.2 herr
      obtain ⟨n2, he2, hm2, hns2⟩ := setConstantsMapAux_err rest cs2 _ herr
      have hn2 : n = n2 := EvalError.UnknownConstant.inj he2
      subst hn2
      have hname_lt : name < n := by
        obtain ⟨p2, hp2, hp2e⟩ := List.mem_map.mp hm2
        exact hp2e ▸ hsr.1 p2 hp2
      constructor
      · intro p hp hlt
        rcases List.mem_cons.mp hp with hpq | hpr
        · subst hpq
          refine ⟨?_, ?_⟩
          · by_contra hni
            exact Option.noConfusion
              (((replaceConstant_eq_none_iff name c cs).mpr hni).symm.trans hrec)
          · have hnn : name ∉ rest.map Prod.fst := by
              intro hmem
              obtain ⟨p2, hp2, hp2e⟩ := List.mem_map.mp hmem
              exact absurd (hp2e ▸ hsr.1 p2 hp2) (lt_irrefl name)
            show lookupConstant name
              (Dolfinx.setConstantsMapAux T rest cs2).1 = some c
            rw [setConstantsMapAux_lookup_ne rest cs2 name hnn]
            exact replaceConstant_lookup_eq name c cs cs2 hrec
        · obtain ⟨hmem, hlook⟩ := ihres.1 p hpr hlt
          refine ⟨?_, hlook⟩
          rw [← replaceConstant_names name c cs cs2 hrec]
          exact hmem
      · intro p hp hgt
        rcases List.mem_cons.mp hp with hpq | hpr
        · subst hpq
          exact absurd hgt (not_lt.mpr (le_of_lt hname_lt))
        · rw [ihres.2 p hpr hgt]
          exact replaceConstant_lookup_ne name c cs cs2 hrec p.1 (hsr.1 p hpr).ne'

/-- C5 counterexample: an Expression declaring only the constant `b`, and a
map with the (sorted) entries `a` and `b`, where `a` matches no declared
constant. The call fails with the unknown-constant error for `a`, but the
matching name `b` is NOT replaced: the stored constant list afterwards is
still `[(b, null)]`, refuting the claim that every matching name in the map
has its stored constant replaced. -/
theorem set_constants_map_partial_counterexample :
    ("b", some [(2 : ℚ)]) ∈ ([("a", some [1]), ("b", some [2])] :
      List (String × Dolfinx.ConstantPtr ℚ)) ∧
    "b" ∈ exprDeclB.constants.map Prod.fst ∧
    (exprDeclB.set_constants_map [("a", some [1]), ("b", some [2])]).2
      = some (.UnknownConstant "a") ∧
    ((exprDeclB.set_constants_map [("a", some [1]), ("b", some [2])]).1).constants
      = [("b", none)] := by
  refine ⟨by decide, by decide, rfl, rfl⟩

/-- C5 amended: `set_constants(map)` (entries processed in ascending name
order, as `std::map` iterates) succeeds if and only if every name in the map
matches a declared constant; on success, every name's first stored constant
is replaced by the map's value. On failure the error is the
unknown-constant error for a name `n` of the map that matches no declared
constant; every map name ordered before `n` matches a declared constant and
has been replaced by the map's value, while every map name ordered after
`n` has its stored constant left unchanged. -/
theorem set_constants_map_amended {T : Type} (e : Dolfinx.Expression T)
    (m : List (String × Dolfinx.ConstantPtr T))
    (hsorted : m.Pairwise fun p q => p.1 < q.1) :
    ((e.set_constants_map m).2 = none ↔
      ∀ p ∈ m, p.1 ∈ e.constants.map Prod.fst) ∧
    ((∀ p ∈ m, p.1 ∈ e.constants.map Prod.fst) →
      ∀ p ∈ m, lookupConstant p.1 ((e.set_constants_map m).1).constants
        = some p.2) ∧
    (∀ err, (e.set_constants_map m).2 = some err →
      ∃ n, err = .UnknownConstant n ∧ n ∈ m.map Prod.fst ∧
        n ∉ e.constants.map Prod.fst ∧
        (∀ p ∈ m, p.1 < n → p.1 ∈ e.constants.map Prod.fst ∧
          lookupConstant p.1 ((e.set_constants_map m).1).constants
            = some p.2) ∧
        (∀ p ∈ m, n < p.1 →
          lookupConstant p.1 ((e.set_constants_map m).1).constants
            = lookupConstant p.1 e.constants)) := by
  have hnd : (m.map Prod.fst).Nodup :=
    hsorted.map Prod.fst (fun _ _ hab => ne_of_lt hab)
  refine ⟨⟨?_, ?_⟩, ?_, ?_⟩
  · intro hok
    by_contra hmiss
    push_neg at hmiss
    obtain ⟨p, hp, hpn⟩ := hmiss
    exact setConstantsMapAux_missing m e.constants ⟨p, hp, hpn⟩ hok
  · intro hall
    exact setConstantsMapAux_ok m e.constants hall
  · intro hall p hp
    exact setConstantsMapAux_lookup_mem m e.constants hnd hall p hp
  · intro err herr
    obtain ⟨n, he, hm, hn⟩ := setConstantsMapAux_err m e.constants err herr
    subst he
    have hfail := setConstantsMapAux_fail_state m e.constants n hsorted herr
    exact ⟨n, rfl, hm, hn, hfail.1, hfail.2⟩

/-- Witness for C5's amended theorem: on the Expression declaring constant
`b`, setting the singleton map `b ↦ [2]` succeeds and stores the value. -/
theorem set_constants_map_amended_witness :
    (exprDeclB.set_constants_map [("b", some [(2 : ℚ)])]).2 = none ∧
    lookupConstant "b"
      ((exprDeclB.set_constants_map [("b", some [(2 : ℚ)])]).1).constants
      = some (some [2]) := by
  have h := set_constants_map_amended exprDeclB [("b", some [(2 : ℚ)])]
    (by decide)
  exact ⟨h.1.mpr (by decide), h.2.1 (by decide) ("b", some [2]) (by decide)⟩

/-- C10: the positional overload erases all declared constant names (every
stored constant is left with the empty name), so any later call to the
named overload whose map holds at least one non-empty name — for instance a
name that was originally declared on the Expression — fails with the
constant-not-found error. -/
theorem set_constants_vec_then_map_fails {T : Type} (e : Dolfinx.Expression T)
    (v : List (Dolfinx.ConstantPtr T))
    (m : List (String × Dolfinx.ConstantPtr T))
    (hm : ∃ p ∈ m, p.1 ≠ "") :
    (∀ q ∈ ((e.set_constants_vec v).1).constants, q.1 = "") ∧
    ∃ n, (((e.set_constants_vec v).1).set_constants_map m).2
      = some (.UnknownConstant n) := by
  constructor
  · intro q hq
    rw [set_constants_vec_constants e v] at hq
    obtain ⟨c, _, hc⟩ := List.mem_map.mp hq
    rw [← hc]
  · apply setConstantsMapAux_all_empty m
    · intro s hs
      rw [set_constants_vec_constants e v, List.map_map] at hs
      obtain ⟨c, _, hc⟩ := List.mem_map.mp hs
      rw [← hc]
      rfl
    · exact hm

/-- Witness for C10: the Expression declaring constant `k`; after the
positional call with one constant, the named call for the originally
declared name `k` fails with the constant-not-found error. -/
theorem set_constants_vec_then_map_fails_witness :
    (∀ q ∈ ((exprDeclK.set_constants_vec [some [(1 : ℚ)]]).1).constants,
      q.1 = "") ∧
    ∃ n, (((exprDeclK.set_constants_vec [some [(1 : ℚ)]]).1).set_constants_map
      [("k", some [2])]).2 = some (.UnknownConstant n) :=
  set_constants_vec_then_map_fails exprDeclK [some [1]] [("k", some [2])]
    ⟨("k", some [2]), by decide, by decide⟩

/-- The spec's single-reference-triangle scenario: a first-degree Lagrange
scalar Function on one reference triangle, nodal coefficients `[1, 0, 0]`. -/
def p1RefTriangle : Dolfin.Function :=
  { space :=
      { element := .P1Triangle
        num_cells := 1
        dofmap := [[0, 1, 2]]
        cell_vertices := [[(0, 0), (1, 0), (0, 1)]]
        interp_points := Dolfin.triangleRefVertices }
    coeffs := [1, 0, 0] }

/-- The spec's two-cell scenario: triangles `(p0 p1 p2)` and `(p1 p2 p3)`
sharing the edge `p1-p2`, with a DG0 (cell-constant) Function of cell
values `[2, 5]`. -/
def dg0TwoCell : Dolfin.Function :=
  { space :=
      { element := .DG0Triangle
        num_cells := 2
        dofmap := [[0], [1]]
        cell_vertices := [[(0, 0), (1, 0), (0, 1)], [(1, 0), (0, 1), (1, 1)]]
        interp_points := [⟨1/3, 1/3, 0⟩, ⟨2/3, 2/3, 0⟩] }
    coeffs := [2, 5] }

theorem getD_map_range (g : Nat → α) (n i : Nat) (h : i < n) (d : α) :
    ((List.range n).map g).getD i d = g i := by
  rw [List.getD_eq_getElem _ d (by simpa using h)]
  simp

/-- C2: in `Function::eval(points, cells, out)` (with a well-shaped output
buffer), every row whose cell index is negative is left identical to its
value before the call — skipped, not zeroed — while rows with non-negative
cell indices receive the computed field values (the point pulled back to
the cell's reference coordinates and the basis-coefficient combination
evaluated there). -/
theorem function_eval_skip (f : Dolfin.Function) (x : List Dolfin.Pt)
    (cells : List Int) (u : List (List ℚ))
    (hlen : u.length = x.length)
    (hrow : (u.all fun r => r.length = f.value_size) = true)
    (i : Nat) (hi : i < x.length) :
    (cells.getD i (-1) < 0 →
      (f.eval x cells u).1.getD i [] = u.getD i []) ∧
    (0 ≤ cells.getD i (-1) →
      (f.eval x cells u).1.getD i [] =
        f.eval_cell (cells.getD i (-1)).toNat
          (f.space.pull_back (cells.getD i (-1)).toNat
            (x.getD i ⟨0, 0, 0⟩))) := by
  have hkey : (f.eval x cells u).1.getD i [] =
      if cells.getD i (-1) < 0 then u.getD i []
      else f.eval_cell (cells.getD i (-1)).toNat
        (f.space.pull_back (cells.getD i (-1)).toNat (x.getD i ⟨0, 0, 0⟩)) := by
    rw [Dolfin.Function.eval, if_pos ⟨hlen, hrow⟩]
    exact getD_map_range _ x.length i hi []
  constructor
  · intro hneg
    rw [hkey, if_pos hneg]
  · intro hpos
    rw [hkey, if_neg (not_lt.mpr hpos)]

/-- Witness for C2: on the single-triangle Function, a batch of two points
where the first is unlocated (cell index `-1`): its output row keeps its
prior contents `[9]`, and the second row receives the computed value. -/
theorem function_eval_skip_witness :
    (p1RefTriangle.eval [⟨0, 0, 0⟩, ⟨1/3, 1/3, 0⟩] [-1, 0]
      [[9], [9]]).1.getD 0 [] = [9] :=
  (function_eval_skip p1RefTriangle [⟨0, 0, 0⟩, ⟨1/3, 1/3, 0⟩] [-1, 0]
    [[9], [9]] (by decide) (by decide) 0 (by decide)).1 (by decide)

/-- C3: `Function::eval` fails with `OutOfRangeError` whenever the output
buffer is not exactly N×value_size (N the number of points), before
computing any values — the buffer is returned unchanged. -/
theorem function_eval_shape_error (f : Dolfin.Function) (x : List Dolfin.Pt)
    (cells : List Int) (u : List (List ℚ))
    (h : ¬(u.length = x.length ∧
      (u.all fun r => r.length = f.value_size) = true)) :
    f.eval x cells u = (u, some .OutOfRangeError) := by
  rw [Dolfin.Function.eval, if_neg h]

/-- Witness for C3: one point but a zero-row output buffer; the call
reports `OutOfRangeError` and leaves the buffer as it was. -/
theorem function_eval_shape_error_witness :
    p1RefTriangle.eval [⟨0, 0, 0⟩] [0] [] = ([], some .OutOfRangeError) :=
  function_eval_shape_error p1RefTriangle [⟨0, 0, 0⟩] [0] [] (by decide)

/-- C6: `compute_point_values()` on the two-cell DG0 mesh sharing one edge
returns per-cell-local point values with no deduplication: six rows for
four distinct vertices, every point of cell 0 (including both shared-edge
vertices) reading `2` and every point of cell 1 reading `5`. -/
theorem compute_point_values_no_dedup :
    dg0TwoCell.compute_point_values = [[2], [2], [2], [5], [5], [5]] ∧
    dg0TwoCell.compute_point_values.length = 6 ∧
    dg0TwoCell.space.cell_vertices.flatten.dedup.length = 4 := by
  have h1 : dg0TwoCell.compute_point_values = [[2], [2], [2], [5], [5], [5]] := by
    simp [Dolfin.Function.compute_point_values, dg0TwoCell,
      Dolfin.Function.eval_cell, Dolfin.FiniteElement.tabulate,
      Dolfin.triangleRefVertices, List.range_succ]
  exact ⟨h1, by rw [h1]; rfl, by decide⟩

/-- C7: interpolating a Function into its own identical function space from
itself, `f.interpolate(f)`, succeeds and leaves the coefficient vector
unchanged, whatever point-location capability is supplied. -/
theorem interpolate_self_id (f : Dolfin.Function) (locate : Dolfin.Pt → Int) :
    f.interpolate f locate = (f, none) ∧
    (f.interpolate f locate).1.coeffs = f.coeffs := by
  have h : f.interpolate f locate = (f, none) := by
    rw [Dolfin.Function.interpolate, if_neg (fun hne => hne rfl), if_pos rfl]
  exact ⟨h, by rw [h]⟩

/-- C8: the first-degree Lagrange scalar Function on a single reference
triangle with nodal coefficients `[1, 0, 0]`, evaluated at the centroid
`(1/3, 1/3)` in reference coordinates, returns `1/3` — the value of node
0's linear basis function at the centroid. -/
theorem eval_reference_p1_centroid :
    p1RefTriangle.eval_reference [⟨1/3, 1/3, 0⟩] = [[1/3]] := by
  simp [Dolfin.Function.eval_reference, p1RefTriangle, Dolfin.Function.eval_cell,
    Dolfin.FiniteElement.tabulate, List.range_succ]
  norm_num
